import Mathlib

/-!
Shallow embedding of the concurrency core of this repository:
`llama_index/core/async_utils.py` (`chunks`, `batch_gather`, `run_jobs`)
and `llama_index/core/instrumentation/dispatcher.py` (`Dispatcher.event`,
`span_enter`, `span_exit`, `span_drop`, `Dispatcher.span`).

Python machine integers do not overflow in the ranges used here, so sizes
are `Int`/`Nat`.  Fallible Python code is embedded in `Except`.
-/

namespace AsyncUtils

/-! ### `chunks` and `batch_gather`

Source (`async_utils.py`):

```
def chunks(iterable, size):
    args = [iter(iterable)] * size
    return zip_longest(*args, fillvalue=None)

async def batch_gather(tasks, batch_size=10, verbose=False):
    output = []
    for task_chunk in chunks(tasks, batch_size):
        output_chunk = await asyncio.gather(*task_chunk)
        output.extend(output_chunk)
    return output
```

`zip_longest` over `size` aliases of one iterator yields consecutive
groups of `size` elements, the last group padded with `None`.  With
`size <= 0` the iterator list is empty and `zip_longest()` yields
nothing.  `asyncio.gather` applies `ensure_future` to each argument and
raises `TypeError` on a `None` argument. -/

/-- One `zip_longest` group per loop iteration; `s` is the size minus one,
so the real group size is `s + 1` and the padding on the last group is
`s - l.length` many `none`s.  The `fuel` argument only forces structural
termination: every iteration consumes at least one element, so any fuel
of at least the list length is enough. -/
def chunkLoop (α : Type) : Nat → List α → Nat → List (List (Option α))
  | _, [], _ => []
  | 0, _ :: _, _ => []
  | fuel + 1, a :: l, s =>
      ((a :: l.take s).map some ++ List.replicate (s - l.length) none)
        :: chunkLoop α fuel (l.drop s) s

/-- All `zip_longest` groups of size `s + 1` drawn from one shared iterator. -/
def chunkPad (α : Type) (l : List α) (s : Nat) : List (List (Option α)) :=
  chunkLoop α l.length l s

/-- `chunks(iterable, size)`: `zip_longest` over `size` copies of one
iterator; non-positive `size` gives an empty iterator list, hence no
groups at all. -/
def chunks (α : Type) (iterable : List α) (size : Int) : List (List (Option α)) :=
  if size ≤ 0 then [] else chunkPad α iterable (size.toNat - 1)

/-- Python error values that the embedded code can raise. -/
inductive PyErr where
  | typeError
  | valueError
deriving DecidableEq, Repr

instance (ε α : Type) [DecidableEq ε] [DecidableEq α] : DecidableEq (Except ε α) := fun a b =>
  match a, b with
  | Except.ok x, Except.ok y =>
      if h : x = y then isTrue (by rw [h]) else isFalse (by intro hc; cases hc; exact h rfl)
  | Except.error x, Except.error y =>
      if h : x = y then isTrue (by rw [h]) else isFalse (by intro hc; cases hc; exact h rfl)
  | Except.ok _, Except.error _ => isFalse (by intro hc; cases hc)
  | Except.error _, Except.ok _ => isFalse (by intro hc; cases hc)

/-- `asyncio.gather(*task_chunk)`: `ensure_future` raises `TypeError` on a
`None` argument; otherwise the awaited results come back in argument
order.  A task is embedded as its result value. -/
def gatherChunk (α : Type) (chunk : List (Option α)) : Except PyErr (List α) :=
  chunk.mapM fun o =>
    match o with
    | some v => Except.ok v
    | none => Except.error PyErr.typeError

/-- `batch_gather(tasks, batch_size)`: fold over the chunks, awaiting each
chunk with `asyncio.gather` and extending `output` with the chunk results. -/
def batch_gather (α : Type) (tasks : List α) (batch_size : Int) : Except PyErr (List α) :=
  (chunks α tasks batch_size).foldlM
    (fun output task_chunk => do
      let output_chunk ← gatherChunk α task_chunk
      pure (output ++ output_chunk))
    []

end AsyncUtils

namespace AsyncUtils

/-! ### `run_jobs`

Source (`async_utils.py`):

```
async def run_jobs(jobs, show_progress=False, workers=DEFAULT_NUM_WORKERS, desc=None):
    semaphore = asyncio.Semaphore(workers)

    @dispatcher.span
    async def worker(job):
        async with semaphore:
            return await job

    pool_jobs = [worker(job) for job in jobs]
    results = await asyncio.gather(*pool_jobs)
    return results
```

The embedding is a small-step machine over an explicit scheduler: a job is
a number of internal suspension points followed by an outcome; a worker
coroutine waits on the semaphore, runs its job's steps, then settles and
releases its permit (the `async with` releases on success and on raise
alike).  `asyncio.gather` stores each child's result at the child's index
and completes its outer future with the first exception, in completion
order, as soon as it occurs (`return_exceptions` is left at `False`);
awaiting `run_jobs` can therefore resume any time after all children
succeeded or after the first child failed.  `asyncio.Semaphore(value)`
raises `ValueError` when `value < 0`. -/

/-- A job submitted to `run_jobs`: some number of internal await points,
then a result or a raised exception (both coded as `Nat`). -/
structure Job where
  steps : Nat
  outcome : Except Nat Nat
deriving DecidableEq, Repr

/-- Phase of one wrapped `worker(job)` coroutine. -/
inductive TaskSt where
  | waiting (j : Job)
  | running (remaining : Nat) (outcome : Except Nat Nat)
  | doneOk (v : Nat)
  | doneErr (e : Nat)
deriving DecidableEq, Repr

/-- State of one `run_jobs` call: the pool of wrapped coroutines in
submission order, the free permits of the private semaphore, the first
exception seen by `asyncio.gather` (in completion order), and what the
`await` of `run_jobs`, once resumed, has returned or raised. -/
structure RState where
  tasks : List TaskSt
  permits : Nat
  firstErr : Option Nat
  surfaced : Option (Except Nat (List Nat))
deriving DecidableEq, Repr

/-- A scheduler decision: admit worker `i` past the semaphore, run one
internal step of job `i`, settle job `i` (releasing its permit), or resume
the caller awaiting `asyncio.gather`. -/
inductive Act where
  | acquire (i : Nat)
  | work (i : Nat)
  | settle (i : Nat)
  | surface
deriving DecidableEq, Repr

/-- Results of the pool when every task has succeeded, in submission
order, exactly as `asyncio.gather` stores child results by index. -/
def allOk : List TaskSt → Option (List Nat)
  | [] => some []
  | TaskSt.doneOk v :: ts => (allOk ts).map (fun vs => v :: vs)
  | TaskSt.waiting _ :: _ => none
  | TaskSt.running _ _ :: _ => none
  | TaskSt.doneErr _ :: _ => none

/-- One scheduler step.  A decision that is not enabled in the current
state leaves the state unchanged. -/
def step (s : RState) : Act → RState
  | Act.acquire i =>
      match s.tasks.get? i, s.permits with
      | some (TaskSt.waiting j), p + 1 =>
          { s with tasks := s.tasks.set i (TaskSt.running j.steps j.outcome), permits := p }
      | _, _ => s
  | Act.work i =>
      match s.tasks.get? i with
      | some (TaskSt.running (k + 1) o) =>
          { s with tasks := s.tasks.set i (TaskSt.running k o) }
      | _ => s
  | Act.settle i =>
      match s.tasks.get? i with
      | some (TaskSt.running 0 (Except.ok v)) =>
          { s with tasks := s.tasks.set i (TaskSt.doneOk v), permits := s.permits + 1 }
      | some (TaskSt.running 0 (Except.error e)) =>
          { s with tasks := s.tasks.set i (TaskSt.doneErr e), permits := s.permits + 1,
                   firstErr := match s.firstErr with
                               | some e0 => some e0
                               | none => some e }
      | _ => s
  | Act.surface =>
      match s.surfaced with
      | some _ => s
      | none =>
          match s.firstErr with
          | some e => { s with surfaced := some (Except.error e) }
          | none =>
              match allOk s.tasks with
              | some vs => { s with surfaced := some (Except.ok vs) }
              | none => s

/-- State right after `asyncio.Semaphore(workers)` succeeded and the pool
`[worker(job) for job in jobs]` was handed to `asyncio.gather`. -/
def initState (workers : Nat) (jobs : List Job) : RState :=
  { tasks := jobs.map TaskSt.waiting, permits := workers, firstErr := none, surfaced := none }

/-- Run a whole schedule. -/
def run (s : RState) (acts : List Act) : RState := acts.foldl step s

/-- `run_jobs(jobs, workers=workers)` up to its first possible suspension:
`asyncio.Semaphore(workers)` raises `ValueError` for a negative count,
otherwise the machine starts in `initState`. -/
def run_jobs_start (jobs : List Job) (workers : Int) : Except PyErr RState :=
  if workers < 0 then Except.error PyErr.valueError
  else Except.ok (initState workers.toNat jobs)

/-- Number of workers currently inside `async with semaphore` — the
"running phase" of the claim. -/
def runningCount (ts : List TaskSt) : Nat :=
  ts.countP fun t =>
    match t with
    | TaskSt.running _ _ => true
    | _ => false

/-- The value a successful job settles with (unused default for a failing
job; only applied under an all-jobs-succeed hypothesis). -/
def jobResult (j : Job) : Nat :=
  match j.outcome with
  | Except.ok v => v
  | Except.error _ => 0

/-- Sequential schedule for job `i`: admit it, run all its internal steps,
settle it. -/
def jobSched (i : Nat) (j : Job) : List Act :=
  Act.acquire i :: (List.replicate j.steps (Act.work i) ++ [Act.settle i])

/-- Sequential schedule for the jobs, indices starting at `i`. -/
def seqSchedFrom : Nat → List Job → List Act
  | _, [] => []
  | i, j :: js => jobSched i j ++ seqSchedFrom (i + 1) js

/-- One complete schedule: run the jobs one after the other, then resume
the caller of `asyncio.gather`. -/
def seqSched (jobs : List Job) : List Act :=
  seqSchedFrom 0 jobs ++ [Act.surface]

/-- Relation between a submitted job and the current phase of its worker
coroutine. -/
def taskMatches (j : Job) : TaskSt → Prop
  | TaskSt.waiting j0 => j0 = j
  | TaskSt.running _ o => o = j.outcome
  | TaskSt.doneOk v => j.outcome = Except.ok v
  | TaskSt.doneErr e => j.outcome = Except.error e

/-- Soundness invariant of the machine: every task tracks its job, the
exception recorded by `asyncio.gather` is an original job exception, and
anything already surfaced is either the full in-order success list or an
original job exception. -/
def Sound (jobs : List Job) (s : RState) : Prop :=
  List.Forall₂ taskMatches jobs s.tasks ∧
  (∀ e, s.firstErr = some e → ∃ j ∈ jobs, j.outcome = Except.error e) ∧
  (∀ vs, s.surfaced = some (Except.ok vs) →
    List.Forall₂ (fun j v => j.outcome = Except.ok v) jobs vs) ∧
  (∀ e, s.surfaced = some (Except.error e) → ∃ j ∈ jobs, j.outcome = Except.error e)

end AsyncUtils

namespace Instr

/-! ### `Dispatcher` notification walk

Source (`instrumentation/dispatcher.py`), the same loop four times, over
`event_handlers` for `event` and over `span_handlers` for `span_enter`,
`span_drop` and `span_exit`:

```
def event(self, event, **kwargs):
    c = self
    while c:
        for h in c.event_handlers:
            try:
                h.handle(event, **kwargs)
            except BaseException:
                pass
        if not c.propagate:
            c = None
        else:
            c = c.parent
```

A dispatcher node is embedded with its two handler lists and its
`propagate` flag; a handler is embedded as an id together with the
outcome of each of its methods on the notification being dispatched
(`Except.error` when that method raises).  The chain from the
originating dispatcher up to the root (the `parent` links through the
`Manager`, finite and acyclic by construction; the root node itself is
built with propagation disabled in the package initializer) is passed
as a list. -/

/-- An attached event handler: its `handle` method either returns or
raises on the notification being dispatched. -/
structure EventHCall where
  hid : Nat
  on_handle : Except AsyncUtils.PyErr Unit
deriving DecidableEq, Repr

/-- An attached span handler: each of its three methods either returns or
raises on the notification being dispatched. -/
structure SpanHCall where
  hid : Nat
  on_enter : Except AsyncUtils.PyErr Unit
  on_exit : Except AsyncUtils.PyErr Unit
  on_drop : Except AsyncUtils.PyErr Unit
deriving DecidableEq, Repr

/-- A dispatcher node of the parent chain. -/
structure DNode where
  event_handlers : List EventHCall
  span_handlers : List SpanHCall
  propagate : Bool
deriving DecidableEq, Repr

/-- `for h in c.<handlers>: try: h.<method>(...) except BaseException:
pass` — every handler is invoked in registration order; a raising method
is caught at its own call site and the loop goes on.  Returns the ids of
the invoked handlers; an `Except.error` result would be an exception
escaping to the caller of the notification. -/
def notifyHandlers : List (Nat × Except AsyncUtils.PyErr Unit) → Except AsyncUtils.PyErr (List Nat)
  | [] => Except.ok []
  | h :: hs =>
      match h.2 with
      | Except.ok _ => (notifyHandlers hs).map (fun tr => h.1 :: tr)
      | Except.error _ => (notifyHandlers hs).map (fun tr => h.1 :: tr)

/-- The `while c:` walk: notify the current node's handlers, stop when its
`propagate` flag is false, otherwise continue with the parent. -/
def notifyChain (sel : DNode → List (Nat × Except AsyncUtils.PyErr Unit)) :
    List DNode → Except AsyncUtils.PyErr (List Nat)
  | [] => Except.ok []
  | c :: rest =>
      match notifyHandlers (sel c) with
      | Except.error e => Except.error e
      | Except.ok tr =>
          if c.propagate then (notifyChain sel rest).map (fun tr2 => tr ++ tr2)
          else Except.ok tr

/-- `Dispatcher.event`: the walk over the `event_handlers` lists. -/
def Dispatcher.event (chain : List DNode) : Except AsyncUtils.PyErr (List Nat) :=
  notifyChain (fun c => c.event_handlers.map fun h => (h.hid, h.on_handle)) chain

/-- `Dispatcher.span_enter`: the walk over `span_handlers`, calling each
handler's `span_enter`. -/
def Dispatcher.span_enter (chain : List DNode) : Except AsyncUtils.PyErr (List Nat) :=
  notifyChain (fun c => c.span_handlers.map fun h => (h.hid, h.on_enter)) chain

/-- `Dispatcher.span_drop`: the walk over `span_handlers`, calling each
handler's `span_drop`. -/
def Dispatcher.span_drop (chain : List DNode) : Except AsyncUtils.PyErr (List Nat) :=
  notifyChain (fun c => c.span_handlers.map fun h => (h.hid, h.on_drop)) chain

/-- `Dispatcher.span_exit`: the walk over `span_handlers`, calling each
handler's `span_exit`. -/
def Dispatcher.span_exit (chain : List DNode) : Except AsyncUtils.PyErr (List Nat) :=
  notifyChain (fun c => c.span_handlers.map fun h => (h.hid, h.on_exit)) chain

/-- Ids of a node's event handlers, in registration order. -/
def eventIds (c : DNode) : List Nat := c.event_handlers.map EventHCall.hid

/-- Ids of a node's span handlers, in registration order. -/
def spanIds (c : DNode) : List Nat := c.span_handlers.map SpanHCall.hid

/-- The nodes a notification visits, per the spec: walk up from the
originating dispatcher, and stop with the first node whose propagation
flag is false (that node included) or after the whole chain. -/
def specVisited : List DNode → List DNode
  | [] => []
  | c :: rest => if c.propagate then c :: specVisited rest else [c]

/-! ### `Dispatcher.span` wrapper

Source (`dispatcher.py`, `wrapper` and `async_wrapper` are identical up
to `await`):

```
token = active_span_id.set(id_)
parent_id = None if token.old_value is Token.MISSING else token.old_value
self.span_enter(id_=id_, bound_args=bound_args, instance=instance, parent_id=parent_id)
try:
    result = func(*args, **kwargs)
except BaseException as e:
    self.event(SpanDropEvent(span_id=id_, err_str=str(e)))
    self.span_drop(id_=id_, bound_args=bound_args, instance=instance, err=e)
    raise
else:
    self.span_exit(id_=id_, bound_args=bound_args, instance=instance, result=result)
    return result
finally:
    active_span_id.reset(token)
```

The `active_span_id` context variable for the calling context is an
`Option Nat` (`none` is `Token.MISSING`).  The wrapped operation is a
function of the active span id that returns or raises; span ids, results,
errors and `str(e)` are coded as `Nat`. -/

/-- A dispatcher-level notification emitted by the wrapper, in order. -/
inductive Signal where
  | enter (id : Nat) (parent : Option Nat)
  | exitSig (id : Nat) (result : Nat)
  | dropEvent (id : Nat) (errStr : Nat)
  | dropSig (id : Nat) (err : Nat)
deriving DecidableEq, Repr

/-- Everything observable about one call of a span-wrapped operation. -/
structure SpanOutcome where
  result : Except Nat Nat
  signals : List Signal
  finalActive : Option Nat
  activeDuring : Option Nat
deriving DecidableEq, Repr

/-- One call of an operation wrapped by `Dispatcher.span` (`wrapper` /
`async_wrapper`): set the context variable, notify `span_enter` with the
parent id read from the token, run the body, then either `span_exit` with
the result, or the `SpanDropEvent` followed by `span_drop` and a re-raise;
the `finally` resets the context variable to the token's old value on both
paths. -/
def spanCall (id_ : Nat) (body : Option Nat → Except Nat Nat) (active : Option Nat) :
    SpanOutcome :=
  let token_old := active
  let parent_id := token_old
  match body (some id_) with
  | Except.ok result =>
      { result := Except.ok result
        signals := [Signal.enter id_ parent_id, Signal.exitSig id_ result]
        finalActive := token_old
        activeDuring := some id_ }
  | Except.error e =>
      { result := Except.error e
        signals := [Signal.enter id_ parent_id, Signal.dropEvent id_ e, Signal.dropSig id_ e]
        finalActive := token_old
        activeDuring := some id_ }

/-- A terminal span transition: a `span_exit` or a `span_drop`
notification. -/
def Signal.terminal : Signal → Bool
  | Signal.exitSig _ _ => true
  | Signal.dropSig _ _ => true
  | _ => false

/-- A node with every handler method replaced by one that returns
normally; used to state that the walk is insensitive to handler
exceptions. -/
def calmNode (c : DNode) : DNode :=
  { event_handlers := c.event_handlers.map fun h => { h with on_handle := Except.ok () }
    span_handlers := c.span_handlers.map fun h =>
      { h with on_enter := Except.ok (), on_exit := Except.ok (), on_drop := Except.ok () }
    propagate := c.propagate }

end Instr

section Lemmas

open AsyncUtils Instr

theorem notifyHandlers_ok (hs : List (Nat × Except PyErr Unit)) :
    notifyHandlers hs = Except.ok (hs.map Prod.fst) := by
  induction hs with
  | nil => rfl
  | cons h hs ih =>
      cases h2 : h.2 <;> simp [notifyHandlers, h2, ih, Except.map]

theorem notifyChain_ok (sel : DNode → List (Nat × Except PyErr Unit)) :
    ∀ chain : List DNode,
      notifyChain sel chain
        = Except.ok (((specVisited chain).map (fun c => (sel c).map Prod.fst)).flatten) := by
  intro chain
  induction chain with
  | nil => rfl
  | cons c rest ih =>
      by_cases hc : c.propagate <;>
        simp [notifyChain, notifyHandlers_ok, specVisited, hc, ih, Except.map]

theorem event_ok (chain : List DNode) :
    Dispatcher.event chain = Except.ok (((specVisited chain).map eventIds).flatten) := by
  rw [Dispatcher.event, notifyChain_ok]
  simp [eventIds, List.map_map]
  rfl

theorem span_enter_ok (chain : List DNode) :
    Dispatcher.span_enter chain = Except.ok (((specVisited chain).map spanIds).flatten) := by
  rw [Dispatcher.span_enter, notifyChain_ok]
  simp [spanIds, List.map_map]
  rfl

theorem span_exit_ok (chain : List DNode) :
    Dispatcher.span_exit chain = Except.ok (((specVisited chain).map spanIds).flatten) := by
  rw [Dispatcher.span_exit, notifyChain_ok]
  simp [spanIds, List.map_map]
  rfl

theorem span_drop_ok (chain : List DNode) :
    Dispatcher.span_drop chain = Except.ok (((specVisited chain).map spanIds).flatten) := by
  rw [Dispatcher.span_drop, notifyChain_ok]
  simp [spanIds, List.map_map]
  rfl

theorem specVisited_calm (chain : List DNode) :
    specVisited (chain.map calmNode) = (specVisited chain).map calmNode := by
  induction chain with
  | nil => rfl
  | cons c rest ih =>
      by_cases hc : c.propagate <;> simp [specVisited, calmNode, hc, ih]

theorem eventIds_calm (c : DNode) : eventIds (calmNode c) = eventIds c := by
  simp [eventIds, calmNode, List.map_map]

theorem spanIds_calm (c : DNode) : spanIds (calmNode c) = spanIds c := by
  simp [spanIds, calmNode, List.map_map]

end Lemmas

section DispatcherClaims

open AsyncUtils Instr

/-- Claim C6: for every event or span notification (`event`, `span_enter`,
`span_exit`, `span_drop`) and every handler that raises, the exception is
caught and discarded at that handler's call site: the walk never lets a
handler exception escape to the instrumented operation, and the invoked
handlers — the remaining ones on the same dispatcher and those on parent
dispatchers included — are exactly the ones that would be invoked had no
handler raised at all. -/
theorem C6_handler_exceptions_swallowed (chain : List DNode) :
    ((∃ tr, Dispatcher.event chain = Except.ok tr) ∧
      (∃ tr, Dispatcher.span_enter chain = Except.ok tr) ∧
      (∃ tr, Dispatcher.span_exit chain = Except.ok tr) ∧
      (∃ tr, Dispatcher.span_drop chain = Except.ok tr)) ∧
    (Dispatcher.event chain = Dispatcher.event (chain.map calmNode) ∧
      Dispatcher.span_enter chain = Dispatcher.span_enter (chain.map calmNode) ∧
      Dispatcher.span_exit chain = Dispatcher.span_exit (chain.map calmNode) ∧
      Dispatcher.span_drop chain = Dispatcher.span_drop (chain.map calmNode)) := by
  refine ⟨⟨⟨_, event_ok chain⟩, ⟨_, span_enter_ok chain⟩,
           ⟨_, span_exit_ok chain⟩, ⟨_, span_drop_ok chain⟩⟩, ?_, ?_, ?_, ?_⟩
  · rw [event_ok, event_ok, specVisited_calm, List.map_map]
    simp [Function.comp_def, eventIds_calm]
  · rw [span_enter_ok, span_enter_ok, specVisited_calm, List.map_map]
    simp [Function.comp_def, spanIds_calm]
  · rw [span_exit_ok, span_exit_ok, specVisited_calm, List.map_map]
    simp [Function.comp_def, spanIds_calm]
  · rw [span_drop_ok, span_drop_ok, specVisited_calm, List.map_map]
    simp [Function.comp_def, spanIds_calm]

/-- Claim C7: every notification kind visits the originating dispatcher
and then the parent chain, invoking each visited node's handlers of the
relevant kind in registration order, and the visited nodes are exactly
the chain prefix up to and including the first node whose propagation
flag is false (the whole chain when every flag is true); in particular a
dispatcher with propagation disabled notifies only its own handlers. -/
theorem C7_propagation_walk (chain : List DNode) :
    (Dispatcher.event chain = Except.ok (((specVisited chain).map eventIds).flatten) ∧
      Dispatcher.span_enter chain = Except.ok (((specVisited chain).map spanIds).flatten) ∧
      Dispatcher.span_exit chain = Except.ok (((specVisited chain).map spanIds).flatten) ∧
      Dispatcher.span_drop chain = Except.ok (((specVisited chain).map spanIds).flatten)) ∧
    (∀ c rest, c.propagate = false → chain = c :: rest →
      Dispatcher.event chain = Except.ok (eventIds c) ∧
      Dispatcher.span_enter chain = Except.ok (spanIds c)) := by
  refine ⟨⟨event_ok chain, span_enter_ok chain, span_exit_ok chain, span_drop_ok chain⟩,
          ?_⟩
  intro c rest hc hchain
  subst hchain
  constructor
  · rw [event_ok]
    simp [specVisited, hc]
  · rw [span_enter_ok]
    simp [specVisited, hc]

/-- Claim C7 witness: a two-node chain with propagation disabled at the
head notifies only the head's handlers. -/
theorem C7_propagation_walk_witness :
    Dispatcher.event
        [⟨[⟨1, Except.ok ()⟩], [], false⟩, ⟨[⟨2, Except.ok ()⟩], [], true⟩]
      = Except.ok [1] ∧
    Dispatcher.span_enter
        [⟨[⟨1, Except.ok ()⟩], [], false⟩, ⟨[⟨2, Except.ok ()⟩], [], true⟩]
      = Except.ok [] :=
  (C7_propagation_walk
      [⟨[⟨1, Except.ok ()⟩], [], false⟩, ⟨[⟨2, Except.ok ()⟩], [], true⟩]).2
    ⟨[⟨1, Except.ok ()⟩], [], false⟩ [⟨[⟨2, Except.ok ()⟩], [], true⟩] rfl rfl

/-- Claim C8: a call of an operation wrapped by `Dispatcher.span` reads
the calling context's active span id as the new span's parent (`none`
when no span is active), runs the operation with the active id set to the
new span's id, and restores the context variable to its exact prior value
on every exit path — the wrapped operation being an arbitrary function
that may return or raise, both paths are covered. -/
theorem C8_active_span_id_protocol (id_ : Nat) (body : Option Nat → Except Nat Nat)
    (active : Option Nat) :
    (spanCall id_ body active).signals.head? = some (Signal.enter id_ active) ∧
    (spanCall id_ body active).activeDuring = some id_ ∧
    (spanCall id_ body active).result = body (some id_) ∧
    (spanCall id_ body active).finalActive = active := by
  cases hb : body (some id_) <;> simp [spanCall, hb]

/-- Claim C9: each span-wrapped call performs exactly one terminal span
transition: a returning operation yields a `span_exit` carrying the
result, which is returned to the caller; a raising operation yields the
`SpanDropEvent` carrying the error description, then `span_drop` with the
error, then the re-raise; the two terminal transitions are mutually
exclusive. -/
theorem C9_terminal_span_transitions (id_ : Nat) (body : Option Nat → Except Nat Nat)
    (active : Option Nat) :
    ((spanCall id_ body active).signals.countP Signal.terminal = 1) ∧
    (∀ v, body (some id_) = Except.ok v →
      (spanCall id_ body active).signals
          = [Signal.enter id_ active, Signal.exitSig id_ v] ∧
      (spanCall id_ body active).result = Except.ok v) ∧
    (∀ e, body (some id_) = Except.error e →
      (spanCall id_ body active).signals
          = [Signal.enter id_ active, Signal.dropEvent id_ e, Signal.dropSig id_ e] ∧
      (spanCall id_ body active).result = Except.error e) := by
  refine ⟨?_, ?_, ?_⟩
  · cases hb : body (some id_) <;> simp [spanCall, hb, Signal.terminal, List.countP_cons]
  · intro v hv
    simp [spanCall, hv]
  · intro e he
    simp [spanCall, he]

/-- Claim C9 witness: a returning operation gets exactly the enter and
exit notifications and its value back. -/
theorem C9_terminal_span_transitions_witness :
    (spanCall 3 (fun _ => Except.ok 5) none).signals
        = [Signal.enter 3 none, Signal.exitSig 3 5] ∧
    (spanCall 3 (fun _ => Except.ok 5) none).result = Except.ok 5 :=
  (C9_terminal_span_transitions 3 (fun _ => Except.ok 5) none).2.1 5 rfl

end DispatcherClaims

section BatchGatherClaims

open AsyncUtils

/-- Claim C1 (code bug): `chunks` pads the final group with `None` and
`batch_gather` hands the padded group to `asyncio.gather`, which raises
`TypeError` — on one task with batch size 2 the call raises instead of
returning the single result, although the spec promises a short final
chunk with no padding jobs and the same result as the unbatched run. -/
theorem C1_batch_gather_padding_raises :
    batch_gather Nat [5] 2 = Except.error PyErr.typeError ∧
    batch_gather Nat [5] 2 ≠ Except.ok [5] ∧
    chunks Nat [5] 2 = [[some 5, none]] := by
  decide

/-- Claim C10: a non-positive batch size gives `zip_longest` an empty
iterator list, so chunking yields no chunks at all and `batch_gather`
returns an empty result without awaiting any submitted job. -/
theorem C10_nonpositive_batch_size (tasks : List Nat) (b : Int)
    (hb : b ≤ 0) (_hne : tasks ≠ []) :
    chunks Nat tasks b = [] ∧ batch_gather Nat tasks b = Except.ok [] := by
  refine ⟨?_, ?_⟩
  · simp [chunks, hb]
  · simp [batch_gather, chunks, hb]
    rfl

/-- Claim C10 witness: batch size `-1` on two tasks. -/
theorem C10_nonpositive_batch_size_witness :
    ((-1 : Int) ≤ 0 ∧ ([7, 8] : List Nat) ≠ []) ∧
    (chunks Nat [7, 8] (-1) = [] ∧ batch_gather Nat [7, 8] (-1) = Except.ok []) :=
  ⟨by decide, C10_nonpositive_batch_size [7, 8] (-1) (by decide) (by decide)⟩

end BatchGatherClaims

section RunJobsLemmas

open AsyncUtils

theorem countP_set {α : Type} (p : α → Bool) :
    ∀ (ts : List α) (i : Nat) (t tNew : α), ts.get? i = some t →
      (ts.set i tNew).countP p + (if p t then 1 else 0)
        = ts.countP p + (if p tNew then 1 else 0) := by
  intro ts
  induction ts with
  | nil =>
      intro i t tNew h
      simp at h
  | cons a ts ih =>
      intro i t tNew h
      cases i with
      | zero =>
          injection h with h
          subst h
          simp only [List.set_cons_zero, List.countP_cons]
          split_ifs <;> omega
      | succ n =>
          have h3 := ih n t tNew h
          simp only [List.set_cons_succ, List.countP_cons]
          split_ifs at h3 ⊢ <;> omega

theorem get_append_len {α : Type} (d : List α) (x : α) (ts : List α) :
    (d ++ x :: ts).get? d.length = some x := by
  induction d with
  | nil => rfl
  | cons a d ih => exact ih

theorem set_append_len {α : Type} (d : List α) (x y : α) (ts : List α) :
    (d ++ x :: ts).set d.length y = d ++ y :: ts := by
  induction d with
  | nil => rfl
  | cons a d ih =>
      show a :: (d ++ x :: ts).set d.length y = a :: (d ++ y :: ts)
      rw [ih]

theorem forall2_get {α β : Type} {R : α → β → Prop} :
    ∀ {as : List α} {bs : List β} {i : Nat} {b : β},
      List.Forall₂ R as bs → bs.get? i = some b → ∃ a, as.get? i = some a ∧ R a b := by
  intro as bs i b hf
  induction hf generalizing i with
  | nil => intro h; simp at h
  | cons hR hf ih =>
      intro h
      cases i with
      | zero =>
          injection h with h
          subst h
          exact ⟨_, rfl, hR⟩
      | succ n => exact ih h

theorem forall2_set {α β : Type} {R : α → β → Prop} :
    ∀ {as : List α} {bs : List β} {i : Nat} {a : α} {bNew : β},
      List.Forall₂ R as bs → as.get? i = some a → R a bNew →
      List.Forall₂ R as (bs.set i bNew) := by
  intro as bs i a bNew hf
  induction hf generalizing i with
  | nil => intro h _; simp at h
  | cons hR hf ih =>
      intro h hnew
      cases i with
      | zero =>
          injection h with h
          subst h
          exact List.Forall₂.cons hnew hf
      | succ n => exact List.Forall₂.cons hR (ih h hnew)

theorem mem_of_get_eq {α : Type} : ∀ {l : List α} {i : Nat} {a : α},
    l.get? i = some a → a ∈ l := by
  intro l
  induction l with
  | nil => intro i a h; simp at h
  | cons x l ih =>
      intro i a h
      cases i with
      | zero =>
          injection h with h
          subst h
          exact List.mem_cons_self x l
      | succ n => exact List.mem_cons_of_mem x (ih h)

theorem permits_step {W : Nat} {s : RState}
    (h : s.permits + runningCount s.tasks = W) (a : Act) :
    (step s a).permits + runningCount (step s a).tasks = W := by
  cases a with
  | acquire i =>
      simp only [step]
      split
      · rename_i j p h1 h2
        have hc := countP_set
          (fun t => match t with | TaskSt.running _ _ => true | _ => false)
          s.tasks i (TaskSt.waiting j) (TaskSt.running j.steps j.outcome) h1
        simp only [runningCount] at h ⊢
        simp at hc ⊢
        omega
      · exact h
  | work i =>
      simp only [step]
      split
      · rename_i k o h1
        have hc := countP_set
          (fun t => match t with | TaskSt.running _ _ => true | _ => false)
          s.tasks i (TaskSt.running (k + 1) o) (TaskSt.running k o) h1
        simp only [runningCount] at h ⊢
        simp at hc ⊢
        omega
      · exact h
  | settle i =>
      simp only [step]
      split
      · rename_i v h1
        have hc := countP_set
          (fun t => match t with | TaskSt.running _ _ => true | _ => false)
          s.tasks i (TaskSt.running 0 (Except.ok v)) (TaskSt.doneOk v) h1
        simp only [runningCount] at h ⊢
        simp at hc ⊢
        omega
      · rename_i e h1
        have hc := countP_set
          (fun t => match t with | TaskSt.running _ _ => true | _ => false)
          s.tasks i (TaskSt.running 0 (Except.error e)) (TaskSt.doneErr e) h1
        simp only [runningCount] at h ⊢
        simp at hc ⊢
        omega
      · exact h
  | surface =>
      simp only [step]
      split
      · exact h
      · split
        · exact h
        · split
          · exact h
          · exact h

theorem permits_run {W : Nat} (acts : List Act) :
    ∀ s : RState, s.permits + runningCount s.tasks = W →
      (run s acts).permits + runningCount (run s acts).tasks = W := by
  induction acts with
  | nil => intro s h; exact h
  | cons a acts ih => intro s h; exact ih (step s a) (permits_step h a)

theorem runningCount_init (jobs : List Job) :
    runningCount (jobs.map TaskSt.waiting) = 0 := by
  apply List.countP_eq_zero.mpr
  intro t ht
  obtain ⟨j, _, rfl⟩ := List.mem_map.mp ht
  simp

end RunJobsLemmas

section RunJobsConcurrency

open AsyncUtils

/-- Claim C3: for every job list and worker count W ≥ 1, along every
schedule the number of workers simultaneously inside
`async with semaphore` never exceeds W, because free permits plus running
workers always equal W — each worker takes one permit before running its
job and gives it back when it settles, whether the job returned or
raised. -/
theorem C3_bounded_concurrency (jobs : List Job) (W : Nat) (_hW : 1 ≤ W)
    (acts : List Act) :
    runningCount (run (initState W jobs) acts).tasks ≤ W ∧
    (run (initState W jobs) acts).permits
        + runningCount (run (initState W jobs) acts).tasks = W := by
  have h0 : (initState W jobs).permits + runningCount (initState W jobs).tasks = W := by
    simp [initState, runningCount_init]
  have h := permits_run acts (initState W jobs) h0
  exact ⟨by omega, h⟩

/-- Claim C3 witness: two workers, one admitted job. -/
theorem C3_bounded_concurrency_witness :
    1 ≤ 2 ∧
    (runningCount (run (initState 2 [⟨1, Except.ok 5⟩]) [Act.acquire 0]).tasks ≤ 2 ∧
      (run (initState 2 [⟨1, Except.ok 5⟩]) [Act.acquire 0]).permits
          + runningCount (run (initState 2 [⟨1, Except.ok 5⟩]) [Act.acquire 0]).tasks = 2) :=
  ⟨by decide, C3_bounded_concurrency [⟨1, Except.ok 5⟩] 2 (by decide) [Act.acquire 0]⟩

end RunJobsConcurrency

section RunJobsSoundness

open AsyncUtils

theorem allOk_matches : ∀ (jobs : List Job) (ts : List TaskSt) (vs : List Nat),
    List.Forall₂ taskMatches jobs ts → allOk ts = some vs →
    List.Forall₂ (fun j v => j.outcome = Except.ok v) jobs vs := by
  intro jobs
  induction jobs with
  | nil =>
      intro ts vs hf h
      cases hf
      injection h with h
      subst h
      exact List.Forall₂.nil
  | cons j js ih =>
      intro ts vs hf h
      cases hf with
      | cons hR hrest =>
          rename_i t ts'
          cases t with
          | doneOk v =>
              simp only [allOk] at h
              cases hall : allOk ts' with
              | none => rw [hall] at h; simp at h
              | some vsTail =>
                  rw [hall] at h
                  simp at h
                  subst h
                  exact List.Forall₂.cons hR (ih ts' vsTail hrest hall)
          | waiting j0 => exact absurd h (by simp [allOk])
          | running k o => exact absurd h (by simp [allOk])
          | doneErr e => exact absurd h (by simp [allOk])

theorem sound_step {jobs : List Job} {s : RState} (h : Sound jobs s) (a : Act) :
    Sound jobs (step s a) := by
  obtain ⟨hf, he, hok, herr⟩ := h
  cases a with
  | acquire i =>
      simp only [step]
      split
      · rename_i j p h1 h2
        refine ⟨?_, he, hok, herr⟩
        obtain ⟨jb, hjb, hm⟩ := forall2_get hf h1
        have hj : j = jb := hm
        apply forall2_set hf hjb
        show j.outcome = jb.outcome
        rw [hj]
      · exact ⟨hf, he, hok, herr⟩
  | work i =>
      simp only [step]
      split
      · rename_i k o h1
        refine ⟨?_, he, hok, herr⟩
        obtain ⟨jb, hjb, hm⟩ := forall2_get hf h1
        have ho : o = jb.outcome := hm
        apply forall2_set hf hjb
        show o = jb.outcome
        exact ho
      · exact ⟨hf, he, hok, herr⟩
  | settle i =>
      simp only [step]
      split
      · rename_i v h1
        refine ⟨?_, he, hok, herr⟩
        obtain ⟨jb, hjb, hm⟩ := forall2_get hf h1
        have ho : Except.ok v = jb.outcome := hm
        apply forall2_set hf hjb
        show jb.outcome = Except.ok v
        exact ho.symm
      · rename_i e h1
        obtain ⟨jb, hjb, hm⟩ := forall2_get hf h1
        have ho : Except.error e = jb.outcome := hm
        refine ⟨?_, ?_, hok, herr⟩
        · apply forall2_set hf hjb
          show jb.outcome = Except.error e
          exact ho.symm
        · intro e2 h2
          cases hfe : s.firstErr with
          | some e0 =>
              rw [hfe] at h2
              injection h2 with h2
              subst h2
              exact he e0 hfe
          | none =>
              rw [hfe] at h2
              injection h2 with h2
              subst h2
              exact ⟨jb, mem_of_get_eq hjb, ho.symm⟩
      · exact ⟨hf, he, hok, herr⟩
  | surface =>
      simp only [step]
      split
      · exact ⟨hf, he, hok, herr⟩
      · split
        · rename_i e hfe
          refine ⟨hf, he, ?_, ?_⟩
          · intro vs h2
            injection h2 with h2
            cases h2
          · intro e2 h2
            injection h2 with h2
            injection h2 with h2
            subst h2
            exact he e hfe
        · split
          · rename_i hfe vs hall
            refine ⟨hf, he, ?_, ?_⟩
            · intro vs2 h2
              injection h2 with h2
              injection h2 with h2
              subst h2
              exact allOk_matches jobs s.tasks vs hf hall
            · intro e2 h2
              injection h2 with h2
              cases h2
          · exact ⟨hf, he, hok, herr⟩

theorem sound_run {jobs : List Job} (acts : List Act) :
    ∀ s : RState, Sound jobs s → Sound jobs (run s acts) := by
  induction acts with
  | nil => intro s h; exact h
  | cons a acts ih => intro s h; exact ih (step s a) (sound_step h a)

theorem sound_init (jobs : List Job) (W : Nat) : Sound jobs (initState W jobs) := by
  refine ⟨?_, ?_, ?_, ?_⟩
  · induction jobs with
    | nil => exact List.Forall₂.nil
    | cons j js ih => exact List.Forall₂.cons rfl ih
  · intro e h
    simp [initState] at h
  · intro vs h
    simp [initState] at h
  · intro e h
    simp [initState] at h

end RunJobsSoundness

section RunJobsFailureClaims

open AsyncUtils

/-- Claim C5 counterexample: two jobs under two workers, the first raises
at once while the second still has an internal await pending; the
scheduler can resume the caller with the failure while the admitted
sibling job is still running — the failure is not held back until all
admitted jobs have completed. -/
theorem C5_failfast_counterexample :
    (run (initState 2 [⟨0, Except.error 7⟩, ⟨1, Except.ok 5⟩])
        [Act.acquire 0, Act.acquire 1, Act.settle 0, Act.surface]).surfaced
      = some (Except.error 7) ∧
    (run (initState 2 [⟨0, Except.error 7⟩, ⟨1, Except.ok 5⟩])
        [Act.acquire 0, Act.acquire 1, Act.settle 0, Act.surface]).tasks.get? 1
      = some (TaskSt.running 1 (Except.ok 5)) := by
  decide

/-- Claim C5 as amended: on any schedule, `run_jobs` only ever surfaces
either the full in-order success list (never a partial one) or an
original job exception unmodified, and resuming the caller with the
failure does not cancel or alter the admitted sibling workers — but the
failure may surface as soon as the first failing job settles, before the
other admitted jobs finish. -/
theorem C5_amended_failure_semantics (jobs : List Job) (W : Nat) (acts : List Act) :
    (∀ vs, (run (initState W jobs) acts).surfaced = some (Except.ok vs) →
      List.Forall₂ (fun j v => j.outcome = Except.ok v) jobs vs) ∧
    (∀ e, (run (initState W jobs) acts).surfaced = some (Except.error e) →
      ∃ j ∈ jobs, j.outcome = Except.error e) ∧
    (∀ s : RState, (step s Act.surface).tasks = s.tasks ∧
      (step s Act.surface).permits = s.permits) := by
  have hs := sound_run acts (initState W jobs) (sound_init jobs W)
  refine ⟨hs.2.2.1, hs.2.2.2, ?_⟩
  intro s
  simp only [step]
  split
  · exact ⟨rfl, rfl⟩
  · split
    · exact ⟨rfl, rfl⟩
    · split
      · exact ⟨rfl, rfl⟩
      · exact ⟨rfl, rfl⟩

/-- Claim C5 amended witness: one failing job, surfaced error 7, which is
the job's own exception. -/
theorem C5_amended_failure_semantics_witness :
    ∃ j ∈ ([⟨0, Except.error 7⟩] : List Job), j.outcome = Except.error 7 :=
  (C5_amended_failure_semantics [⟨0, Except.error 7⟩] 1
      [Act.acquire 0, Act.settle 0, Act.surface]).2.1 7 (by decide)

/-- Claim C4 (code bug): a negative worker count is rejected eagerly
(`asyncio.Semaphore` raises `ValueError` before any job is examined), but
`workers=0` is accepted — `Semaphore(0)` is legal — and with a non-empty
job list the machine is then permanently stuck: no scheduler decision
changes the state and nothing is ever surfaced, a deadlock instead of the
claimed eager configuration error. -/
theorem C4_zero_workers_deadlock :
    (∀ jobs : List Job, run_jobs_start jobs (-1) = Except.error PyErr.valueError) ∧
    run_jobs_start [⟨2, Except.ok 7⟩] 0
      = Except.ok (initState 0 [⟨2, Except.ok 7⟩]) ∧
    (∀ a : Act, step (initState 0 [⟨2, Except.ok 7⟩]) a
      = initState 0 [⟨2, Except.ok 7⟩]) ∧
    (initState 0 [⟨2, Except.ok 7⟩]).surfaced = none := by
  refine ⟨fun jobs => rfl, rfl, ?_, rfl⟩
  intro a
  cases a with
  | acquire i => cases i <;> rfl
  | work i => cases i <;> rfl
  | settle i => cases i <;> rfl
  | surface => rfl

end RunJobsFailureClaims

section RunJobsOrdering

open AsyncUtils

theorem run_append (s : RState) (acts1 acts2 : List Act) :
    run s (acts1 ++ acts2) = run (run s acts1) acts2 := by
  simp [run, List.foldl_append]

theorem forall2_ok_eq_map : ∀ (jobs : List Job) (vs : List Nat),
    List.Forall₂ (fun j v => j.outcome = Except.ok v) jobs vs →
    vs = jobs.map jobResult := by
  intro jobs
  induction jobs with
  | nil =>
      intro vs h
      cases h
      rfl
  | cons j js ih =>
      intro vs h
      cases h with
      | cons hR hrest =>
          rename_i v vsTail
          rw [ih vsTail hrest]
          show v :: _ = jobResult j :: _
          congr 1
          simp [jobResult, hR]

theorem run_work_replicate (k : Nat) :
    ∀ (d : List TaskSt) (o : Except Nat Nat) (ts : List TaskSt) (p : Nat)
      (fe : Option Nat) (su : Option (Except Nat (List Nat))),
      run ⟨d ++ TaskSt.running k o :: ts, p, fe, su⟩
          (List.replicate k (Act.work d.length))
        = ⟨d ++ TaskSt.running 0 o :: ts, p, fe, su⟩ := by
  induction k with
  | zero => intro d o ts p fe su; rfl
  | succ k ih =>
      intro d o ts p fe su
      have hstep : step ⟨d ++ TaskSt.running (k + 1) o :: ts, p, fe, su⟩ (Act.work d.length)
          = ⟨d ++ TaskSt.running k o :: ts, p, fe, su⟩ := by
        simp only [step, get_append_len]
        rw [set_append_len]
      show run (step ⟨d ++ TaskSt.running (k + 1) o :: ts, p, fe, su⟩ (Act.work d.length))
          (List.replicate k (Act.work d.length)) = _
      rw [hstep]
      exact ih d o ts p fe su

theorem run_jobSched_ok (j : Job) (v : Nat) (hv : j.outcome = Except.ok v)
    (d : List TaskSt) (rest : List TaskSt) (p : Nat) :
    run ⟨d ++ TaskSt.waiting j :: rest, p + 1, none, none⟩ (jobSched d.length j)
      = ⟨d ++ TaskSt.doneOk v :: rest, p + 1, none, none⟩ := by
  have h1 : step ⟨d ++ TaskSt.waiting j :: rest, p + 1, none, none⟩ (Act.acquire d.length)
      = ⟨d ++ TaskSt.running j.steps j.outcome :: rest, p, none, none⟩ := by
    simp only [step, get_append_len]
    rw [set_append_len]
  have h2 : step ⟨d ++ TaskSt.running 0 j.outcome :: rest, p, none, none⟩ (Act.settle d.length)
      = ⟨d ++ TaskSt.doneOk v :: rest, p + 1, none, none⟩ := by
    rw [hv]
    simp only [step, get_append_len]
    rw [set_append_len]
  show run (step ⟨d ++ TaskSt.waiting j :: rest, p + 1, none, none⟩ (Act.acquire d.length))
      (List.replicate j.steps (Act.work d.length) ++ [Act.settle d.length]) = _
  rw [h1, run_append, run_work_replicate]
  show step ⟨d ++ TaskSt.running 0 j.outcome :: rest, p, none, none⟩ (Act.settle d.length) = _
  exact h2

theorem run_seqSchedFrom (rest : List Job) :
    ∀ (d : List TaskSt) (p : Nat),
      (∀ j ∈ rest, j.outcome = Except.ok (jobResult j)) →
      run ⟨d ++ rest.map TaskSt.waiting, p + 1, none, none⟩ (seqSchedFrom d.length rest)
        = ⟨d ++ rest.map (fun j => TaskSt.doneOk (jobResult j)), p + 1, none, none⟩ := by
  induction rest with
  | nil => intro d p _; rfl
  | cons j js ih =>
      intro d p hok
      have hj := hok j (List.mem_cons_self _ _)
      show run ⟨d ++ TaskSt.waiting j :: js.map TaskSt.waiting, p + 1, none, none⟩
          (jobSched d.length j ++ seqSchedFrom (d.length + 1) js) = _
      rw [run_append, run_jobSched_ok j (jobResult j) hj d (js.map TaskSt.waiting) p]
      have hd : d ++ TaskSt.doneOk (jobResult j) :: js.map TaskSt.waiting
          = (d ++ [TaskSt.doneOk (jobResult j)]) ++ js.map TaskSt.waiting := by
        simp
      have hlen : d.length + 1 = (d ++ [TaskSt.doneOk (jobResult j)]).length := by
        simp
      rw [hd, hlen, ih (d ++ [TaskSt.doneOk (jobResult j)]) p
        (fun x hx => hok x (List.mem_cons_of_mem _ hx))]
      congr 1
      simp

theorem allOk_done_map (jobs : List Job) :
    allOk (jobs.map fun j => TaskSt.doneOk (jobResult j)) = some (jobs.map jobResult) := by
  induction jobs with
  | nil => rfl
  | cons j js ih => simp [allOk, ih]

theorem run_seqSched_ok (jobs : List Job) (W : Nat) (hW : 1 ≤ W)
    (hok : ∀ j ∈ jobs, j.outcome = Except.ok (jobResult j)) :
    (run (initState W jobs) (seqSched jobs)).surfaced
      = some (Except.ok (jobs.map jobResult)) := by
  obtain ⟨p, rfl⟩ : ∃ p, W = p + 1 := ⟨W - 1, by omega⟩
  show (run (initState (p + 1) jobs) (seqSchedFrom 0 jobs ++ [Act.surface])).surfaced = _
  rw [run_append]
  have h1 := run_seqSchedFrom jobs [] p hok
  simp only [List.nil_append, List.length_nil] at h1
  rw [show initState (p + 1) jobs
      = ⟨jobs.map TaskSt.waiting, p + 1, none, none⟩ from rfl]
  rw [h1]
  show (step ⟨jobs.map (fun j => TaskSt.doneOk (jobResult j)), p + 1, none, none⟩
      Act.surface).surfaced = _
  simp [step, allOk_done_map]

/-- Claim C2: when every submitted job succeeds, on any schedule whatever
`run_jobs` surfaces is exactly the in-order list of job results — the
i-th result belongs to the i-th submitted job regardless of completion
order — and the sequential schedule does surface it; the empty job list
surfaces the empty result list. -/
theorem C2_run_jobs_ordered_results (jobs : List Job) (W : Nat) (hW : 1 ≤ W)
    (hok : ∀ j ∈ jobs, j.outcome = Except.ok (jobResult j)) :
    (∀ (acts : List Act) (r : Except Nat (List Nat)),
      (run (initState W jobs) acts).surfaced = some r →
      r = Except.ok (jobs.map jobResult)) ∧
    (run (initState W jobs) (seqSched jobs)).surfaced
      = some (Except.ok (jobs.map jobResult)) ∧
    (run (initState W ([] : List Job)) [Act.surface]).surfaced
      = some (Except.ok ([] : List Nat)) := by
  refine ⟨?_, run_seqSched_ok jobs W hW hok, rfl⟩
  intro acts r hsurf
  have hs := sound_run acts (initState W jobs) (sound_init jobs W)
  cases r with
  | ok vs =>
      rw [forall2_ok_eq_map jobs vs (hs.2.2.1 vs hsurf)]
  | error e =>
      obtain ⟨j, hj, hje⟩ := hs.2.2.2 e hsurf
      rw [hok j hj] at hje
      simp at hje

/-- Claim C2 witness: two successful jobs under one worker; the surfaced
results are in submission order. -/
theorem C2_run_jobs_ordered_results_witness :
    (1 ≤ 1 ∧
      ∀ j ∈ ([⟨0, Except.ok 3⟩, ⟨1, Except.ok 4⟩] : List Job),
        j.outcome = Except.ok (jobResult j)) ∧
    (run (initState 1 [⟨0, Except.ok 3⟩, ⟨1, Except.ok 4⟩])
        (seqSched [⟨0, Except.ok 3⟩, ⟨1, Except.ok 4⟩])).surfaced
      = some (Except.ok ([⟨0, Except.ok 3⟩, ⟨1, Except.ok 4⟩].map jobResult)) :=
  ⟨⟨by decide, by decide⟩,
    (C2_run_jobs_ordered_results [⟨0, Except.ok 3⟩, ⟨1, Except.ok 4⟩] 1
      (by decide) (by decide)).2.1⟩

end RunJobsOrdering
